import Mathlib

/-!
Verification of the QC_Software host-side acquisition and control plane.

This file shallowly embeds the core data paths of the repository in Lean:

* the DMA producer loop of `cmd/xdma_shm_bridge/main.go` over the shared
  memory ring of `pkg/shm_ring/shm_ring.go`;
* the BRAM controller of `cli.go` (`programBRAM`, `updateBRAM`,
  `UpdateParameter`, `SetupBRAM`, `ApplyConfig`) as trace-producing
  functions over an abstract status-register oracle;
* the channel demultiplexer of `processAndWrite` (recording loop) and
  the DDC frequency scaling of `recording_handlers.go`;
* the live-stream loop of `stream_loop_linux.go` as a step function on
  the device-open state.

Machine integers are modelled as `Nat` with explicit `% 2^32` where Go
uses `uint32`; Go `float64` arithmetic in the DDC scaling path is
modelled over `ℚ` (exact for the concrete values considered, which are
far from any rounding boundary); real time (sleeps, the 1 s handshake
deadline) is modelled by explicit sleep events and a poll budget.
-/

namespace QC

/-! ## Shared-memory ring buffer (`pkg/shm_ring/shm_ring.go`) and the
DMA producer loop (`cmd/xdma_shm_bridge/main.go`) -/

/-- Modelled from the spec: `ShmRing.AdvanceHead` is absent from `src/`
(only its caller `cmd/xdma_shm_bridge/main.go` is present).  §4.1:
"advance_head(delta): atomically adds `delta` to head modulo `N`".
This also matches the head arithmetic of `ShmRing.Write`
(`newHead := (head + uint64(n)) % r.total`). -/
def advanceHead (total head delta : ℕ) : ℕ :=
  (head + delta) % total

/-- One iteration of the producer loop in `cmd/xdma_shm_bridge/main.go`
(lines 66–113), as a function of the ring payload size `total`, the
configured `blockSize`, the current `head`, and the byte count `n`
returned by the device read.  The read request is
`min blockSize (total - head)`; on a positive return the head advances
by `(n / 32) * 32` bytes (`inputBlockSize = 32`). -/
def producerStep (total blockSize head n : ℕ) : ℕ :=
  let spaceToEnd := total - head
  let readRequest := min blockSize spaceToEnd
  -- the device returns at most `readRequest` bytes; the head update
  -- below does not depend on that bound
  let _ := readRequest
  let alignedBytes := (n / 32) * 32
  if alignedBytes > 0 then advanceHead total head alignedBytes else head

/-- The producer loop folded over a sequence of read returns, starting
from a freshly created ring (`head = 0`). -/
def producerRun (total blockSize : ℕ) (reads : List ℕ) : ℕ :=
  reads.foldl (producerStep total blockSize) 0

/-! ## Ring creation (`shm_ring.Create` / `shm_ring.Open`) -/

/-- The header fields `Create` initialises
(`Magic`, `Size`, `Version`, `Head`, `Tail`). -/
structure RingHeader where
  magic : ℕ
  size : ℕ
  head : ℕ
  tail : ℕ
  version : ℕ
  deriving DecidableEq, Repr

def MagicValue : ℕ := 0x5143415054555245

/-- Outcome of `shm_ring.Create` / `shm_ring.Open`. -/
inductive CreateResult where
  /-- the named object did not exist; a fresh ring was created -/
  | createdNew (h : RingHeader)
  /-- the named object existed and `Create` fell back to `Open`,
  which validated the magic and returned the existing ring -/
  | openedExisting (h : RingHeader)
  /-- `Open` rejected the object: magic mismatch -/
  | invalidFormat
  /-- the error the spec prescribes for an existing object -/
  | alreadyExists
  deriving DecidableEq, Repr

/-- `shm_ring.Open` (lines 81–113): maps the existing object and
validates the magic. -/
def ringOpen (existing : RingHeader) : CreateResult :=
  if existing.magic = MagicValue then .openedExisting existing
  else .invalidFormat

/-- `shm_ring.Create` (lines 34–78): opens the backing object with
`O_CREAT|O_EXCL`; on `EEXIST` it calls `Open(name)`; otherwise it
initialises the header (`Magic`, `Size`, `Version = 1`, `Head = 0`,
`Tail = 0`).  The filesystem is abstracted as the optional
pre-existing object at that name. -/
def ringCreate (preexisting : Option RingHeader) (size : ℕ) : CreateResult :=
  match preexisting with
  | some existing => ringOpen existing
  | none =>
      .createdNew { magic := MagicValue, size := size, head := 0, tail := 0, version := 1 }

/-! ## 32-bit helpers for the BRAM controller -/

/-- Go `uint32` truncation. -/
def u32 (n : ℕ) : ℕ := n % 2 ^ 32

/-- Go `uint32(v)` for a signed `int` value `v`. -/
def u32z (z : ℤ) : ℕ := (z % 2 ^ 32).toNat

/-- Go `s &^ (1 << k)` (AND NOT) for `s < 2^32`: clear bit `k`. -/
def clearBit32 (s k : ℕ) : ℕ := s &&& (2 ^ 32 - 1 - 2 ^ k)

/-! ## BRAM parameter table (`cli.go`)

`paramTable` is embedded as a list of `(ID, Name)` pairs in table
order; the parameter IDs are the Go `iota` values, which coincide with
the table positions.  The host-side shadow of current values
(`hc.params[id].Value`) is a function from ID to `ℤ`. -/

/-- ASCII bytes of a parameter name. -/
def ascii (s : String) : List ℕ := s.toList.map Char.toNat

def qcParamTable : List (ℕ × List ℕ) :=
  [(0, ascii "CH0_EN"), (1, ascii "CH1_EN"), (2, ascii "CH2_EN"),
   (3, ascii "CH3_EN"), (4, ascii "CH4_EN"), (5, ascii "CH5_EN"),
   (6, ascii "CH6_EN"), (7, ascii "CH7_EN"),
   (8, ascii "DDC0_EN"), (9, ascii "DDC1_EN"), (10, ascii "DDC2_EN"),
   (11, ascii "DDC0_FMIX"), (12, ascii "DDC0_SFOUT"),
   (13, ascii "DDC1_FMIX"), (14, ascii "DDC1_SFOUT"),
   (15, ascii "DDC2_FMIX"), (16, ascii "DDC2_SFOUT"),
   (17, ascii "LP500MHZ_EN"), (18, ascii "LP1GHZ_EN"),
   (19, ascii "LP2GHZ_EN"), (20, ascii "BYPASS_EN"),
   (21, ascii "ATTENUATION_BVAL"), (22, ascii "SYSTEM_EN"),
   (23, ascii "CAL_EN")]

/-- The default `Value` column of `paramTable`. -/
def qcDefaultShadow : ℕ → ℤ := fun id =>
  match id with
  | 11 => 10
  | 12 => 1
  | 13 => 1
  | 14 => 1
  | 15 => 1
  | 16 => 1
  | 17 => 1
  | 22 => 1
  | _ => 0

/-! ## `writePCIeString` (cli.go lines 669–688) -/

/-- The padding loop: append `"\x00"` until the length is a multiple
of 4. -/
def padString (s : List ℕ) : List ℕ :=
  s ++ List.replicate ((4 - s.length % 4) % 4) 0

/-- Pack bytes into 32-bit little-endian words, 4 bytes per word
(`val |= uint32(chunk[j]) << (j * 8)`).  The input is always a
multiple of 4 bytes long; the shorter catch-all cases zero-extend,
which agrees with the padding. -/
def packWords : List ℕ → List ℕ
  | b0 :: b1 :: b2 :: b3 :: rest =>
      (b0 + 256 * b1 + 65536 * b2 + 16777216 * b3) :: packWords rest
  | [b0, b1, b2] => [b0 + 256 * b1 + 65536 * b2]
  | [b0, b1] => [b0 + 256 * b1]
  | [b0] => [b0]
  | [] => []

/-- The word sequence `writePCIeString` writes for a name. -/
def nameWords (s : List ℕ) : List ℕ := packWords (padString s)

/-- Decode a little-endian word sequence back into bytes
(4 bytes per word). -/
def decodeWords : List ℕ → List ℕ
  | [] => []
  | w :: rest =>
      [w % 256, w / 256 % 256, w / 65536 % 256, w / 16777216 % 256] ++ decodeWords rest

/-! ## `programBRAM` (cli.go lines 316–401)

The function is embedded as the list of `(word address, value)` pairs
it writes, in write order. -/

/-- The writes of one parameter entry starting at word `addr`:
start token, loop index, name length, value offset 3, shadow value,
key/value separator, the packed name words, then the end token at
`addr + 6 + len/4 + 1` (the Go code advances the address by
`len(p.Name)/4 + 1` words after the name). -/
def entryWrites (addr idx : ℕ) (name : List ℕ) (value : ℤ) : List (ℕ × ℕ) :=
  [(addr, 0xCCCCCCCC), (addr + 1, u32 idx), (addr + 2, u32 name.length),
   (addr + 3, 3), (addr + 4, u32z value), (addr + 5, 0xBBBBBBBB)]
  ++ (nameWords name).enum.map (fun p => (addr + 6 + p.1, p.2))
  ++ [(addr + 6 + name.length / 4 + 1, 0xEEEEEEEE)]

/-- The writes of all parameter entries plus the address left after the
last entry.  Each entry occupies `8 + len/4` words of address
advance. -/
def programEntries (shadow : ℕ → ℤ) :
    List (ℕ × List ℕ) → ℕ → ℕ → List (ℕ × ℕ) × ℕ
  | [], addr, _ => ([], addr)
  | (id, name) :: rest, addr, idx =>
      (entryWrites addr idx name (shadow id)
        ++ (programEntries shadow rest (addr + 8 + name.length / 4) (idx + 1)).1,
       (programEntries shadow rest (addr + 8 + name.length / 4) (idx + 1)).2)

/-- The complete write trace of `programBRAM`: start token at word 0,
parameter count at word 5, end-header token at word 6, the parameter
entries from word 7, then the trailer `0xABABABAB, 0xEEEEEEEE`. -/
def programWrites (shadow : ℕ → ℤ) (table : List (ℕ × List ℕ)) : List (ℕ × ℕ) :=
  [(0, 0xDEADBEEF), (5, u32 table.length), (6, 0xDEADBEEF)]
  ++ (programEntries shadow table 7 0).1
  ++ [((programEntries shadow table 7 0).2, 0xABABABAB),
      ((programEntries shadow table 7 0).2 + 1, 0xEEEEEEEE)]

/-- The starting word address of the i-th parameter entry: entries
begin at word 7 and each occupies `8 + len/4` words of address
advance. -/
def entryAddr (table : List (ℕ × List ℕ)) (i : ℕ) : ℕ :=
  7 + ((table.take i).map (fun p => 8 + p.2.length / 4)).sum

/-- The writes `programBRAM` performs on the concrete parameter table
with the default shadow values. -/
def qcWrites : List (ℕ × ℕ) := programWrites qcDefaultShadow qcParamTable

/-- The i-th row of the concrete parameter table. -/
def qcEntry (i : ℕ) : ℕ × List ℕ := qcParamTable.getD i (0, [])

/-! ## Handshake traces (`updateBRAM`, `SetupBRAM`, `UpdateParameter`)

The control device is abstracted by an oracle giving the status value
observed by the i-th read of the run (`u32`-truncated at the read).
Writes and sleeps are recorded as events.  The 1 s handshake deadline
is modelled by a poll budget: the number of 1 ms poll iterations that
fit in the window. -/

inductive Event where
  | rd (addr v : ℕ)
  | wr (addr v : ℕ)
  | sleepMs (ms : ℕ)
  deriving DecidableEq, Repr

/-- The status polling loop of `updateBRAM`: read the status word,
stop when `cond` holds, otherwise sleep 1 ms and retry; `none` after
`budget` failed reads models the 1 s timeout.  Returns the trace, the
successful value (if any) and the next read index. -/
def pollStatus (oracle : ℕ → ℕ) (cond : ℕ → Bool) :
    ℕ → ℕ → List Event × Option ℕ × ℕ
  | 0, ridx => ([], none, ridx)
  | b + 1, ridx =>
      let v := u32 (oracle ridx)
      if cond v then ([.rd 1 v], some v, ridx + 1)
      else
        let rest := pollStatus oracle cond b (ridx + 1)
        (.rd 1 v :: .sleepMs 1 :: rest.1, rest.2.1, rest.2.2)

/-- The trace of `L` failed poll iterations starting at read index
`ridx`: each is a status read followed by the 1 ms sleep. -/
def pollFails (oracle : ℕ → ℕ) : ℕ → ℕ → List Event
  | _, 0 => []
  | ridx, L + 1 =>
      Event.rd 1 (u32 (oracle ridx)) :: Event.sleepMs 1
        :: pollFails oracle (ridx + 1) L

/-- `updateBRAM` (cli.go lines 430–523) for table index `paramIndex`:
set bit 31 by read-modify-write; poll for bit 30 high (timeout →
failure); clear bit 31; re-program the whole BRAM table; replace the
low 16 status bits with `paramIndex & 0xFFFF`; set bit 29; poll for
bit 30 low (timeout → failure); clear bit 29.  Returns the event trace
and `true` on success, `false` on `HandshakeTimeout`. -/
def updateBRAMRun (oracle : ℕ → ℕ) (budget : ℕ) (shadow : ℕ → ℤ)
    (table : List (ℕ × List ℕ)) (paramIndex : ℕ) : List Event × Bool :=
  let s0 := u32 (oracle 0)
  let t0 : List Event := [.rd 1 s0, .wr 1 (s0 ||| 2 ^ 31)]
  let p1 := pollStatus oracle (fun v => v.testBit 30) budget 1
  match p1.2.1 with
  | none => (t0 ++ p1.1, false)
  | some _ =>
      let r1 := p1.2.2
      let s1 := u32 (oracle r1)
      let t1 : List Event := [.rd 1 s1, .wr 1 (clearBit32 s1 31)]
      let tProg := (programWrites shadow table).map (fun p => Event.wr p.1 p.2)
      let s2 := u32 (oracle (r1 + 1))
      let t2 : List Event :=
        [.rd 1 s2, .wr 1 ((s2 &&& 0xFFFF0000) ||| (paramIndex &&& 0xFFFF))]
      let s3 := u32 (oracle (r1 + 2))
      let t3 : List Event := [.rd 1 s3, .wr 1 (s3 ||| 2 ^ 29)]
      let p2 := pollStatus oracle (fun v => !(v.testBit 30)) budget (r1 + 3)
      match p2.2.1 with
      | none => (t0 ++ p1.1 ++ t1 ++ tProg ++ t2 ++ t3 ++ p2.1, false)
      | some _ =>
          let r2 := p2.2.2
          let s4 := u32 (oracle r2)
          (t0 ++ p1.1 ++ t1 ++ tProg ++ t2 ++ t3 ++ p2.1
            ++ [.rd 1 s4, .wr 1 (clearBit32 s4 29)], true)

/-- The event sequence the spec prescribes for a parameter update up to
(and including) setting bit 29, for a first poll that saw `L1` failed
reads: read-modify-write setting bit 31; the poll reads (ending with
the successful one); read-modify-write clearing bit 31; the full BRAM
re-program; read-modify-write replacing the low 16 status bits with
`k & 0xFFFF`; read-modify-write setting bit 29. -/
def updateStage1 (oracle : ℕ → ℕ) (shadow : ℕ → ℤ)
    (table : List (ℕ × List ℕ)) (k L1 : ℕ) : List Event :=
  [Event.rd 1 (u32 (oracle 0)), Event.wr 1 (u32 (oracle 0) ||| 2 ^ 31)]
  ++ (pollFails oracle 1 L1 ++ [Event.rd 1 (u32 (oracle (1 + L1)))])
  ++ [Event.rd 1 (u32 (oracle (1 + L1 + 1))),
      Event.wr 1 (clearBit32 (u32 (oracle (1 + L1 + 1))) 31)]
  ++ (programWrites shadow table).map (fun p => Event.wr p.1 p.2)
  ++ [Event.rd 1 (u32 (oracle (1 + L1 + 1 + 1))),
      Event.wr 1 ((u32 (oracle (1 + L1 + 1 + 1)) &&& 0xFFFF0000)
        ||| (k &&& 0xFFFF))]
  ++ [Event.rd 1 (u32 (oracle (1 + L1 + 1 + 2))),
      Event.wr 1 (u32 (oracle (1 + L1 + 1 + 2)) ||| 2 ^ 29)]

/-- `UpdateParameter` (cli.go lines 404–427): fail if the ID is not in
the parameter map; otherwise set the host-side shadow to the requested
value, look up the table index of the ID, and run the `updateBRAM`
handshake.  Returns the new shadow, the trace, and `none` for an
unknown ID / `some ok` for a run of the handshake. -/
def updateParameterRun (oracle : ℕ → ℕ) (budget : ℕ) (shadow : ℕ → ℤ)
    (table : List (ℕ × List ℕ)) (paramID : ℕ) (value : ℤ) :
    (ℕ → ℤ) × List Event × Option Bool :=
  if paramID ∈ table.map Prod.fst then
    let shadow' := Function.update shadow paramID value
    let paramIndex := table.findIdx (fun p => p.1 == paramID)
    let run := updateBRAMRun oracle budget shadow' table paramIndex
    (shadow', run.1, some run.2)
  else (shadow, [], none)

/-- `SetupBRAM` (cli.go lines 277–313): read the status word; if bit 27
(`BRAM_SETUP_REQUEST`) is set, program the BRAM table, set bit 26
(`HOST_SETUP_DONE`) by read-modify-write, sleep 50 ms, and clear
bit 26 by read-modify-write; otherwise do nothing further. -/
def setupBRAMRun (oracle : ℕ → ℕ) (shadow : ℕ → ℤ)
    (table : List (ℕ × List ℕ)) : List Event :=
  let s0 := u32 (oracle 0)
  if s0.testBit 27 then
    let tProg := (programWrites shadow table).map (fun p => Event.wr p.1 p.2)
    let s1 := u32 (oracle 1)
    let s2 := u32 (oracle 2)
    Event.rd 1 s0 :: tProg
      ++ [.rd 1 s1, .wr 1 (s1 ||| 2 ^ 26), .sleepMs 50,
          .rd 1 s2, .wr 1 (clearBit32 s2 26)]
  else [Event.rd 1 s0]

/-- Replay a trace's writes against a word-addressed memory. -/
def applyWrites (mem : ℕ → ℕ) (tr : List Event) : ℕ → ℕ :=
  tr.foldl
    (fun m e => match e with
      | .wr a v => Function.update m a v
      | _ => m) mem

/-! ## DDC frequency scaling (`recording_handlers.go` lines 306–330)
and `ApplyConfig` (cli.go lines 539–594) -/

def DesignClockMHz : ℚ := 250

/-- Go `math.Round`: round half away from zero. -/
def goRound (q : ℚ) : ℤ :=
  if 0 ≤ q then ⌊q + 1 / 2⌋ else -⌊-q + 1 / 2⌋

/-- The 32-bit value `setDDCFrequency` writes:
`int(math.Round(freqMHz * (DesignClockMHz / actualClock)))`, where
`actualClock` is `serverState.IBWMHZ` (the actual IBW in MHz).
`float64` arithmetic is modelled over `ℚ`. -/
def setDDCHwVal (freqMHz actualClock : ℚ) : ℤ :=
  goRound (freqMHz * (DesignClockMHz / actualClock))

/-- `setDDCFrequency`: dispatch the DDC index to its `FMIX` parameter
ID (11, 13, 15), fail on any other index, and produce the
`UpdateParameter` call `(paramID, scaled value)`. -/
def setDDCFrequencyCall (ddcIndex : ℕ) (freqMHz actualClock : ℚ) :
    Option (ℕ × ℤ) :=
  match ddcIndex with
  | 0 => some (11, setDDCHwVal freqMHz actualClock)
  | 1 => some (13, setDDCHwVal freqMHz actualClock)
  | 2 => some (15, setDDCHwVal freqMHz actualClock)
  | _ => none

/-- The filter field of a `HardwareConfig`; `other` stands for any
string not matched by the Go `switch`. -/
inductive FilterSel where
  | f500mhz | f1ghz | f2ghz | fbypass | other
  deriving DecidableEq, Repr

/-- `HardwareConfig` (cli.go lines 208–219): a record of optional
fields; `nil` pointers are `none`. -/
structure HardwareConfigM where
  ddc0FreqMHz : Option ℤ := none
  ddc1FreqMHz : Option ℤ := none
  ddc2FreqMHz : Option ℤ := none
  ddc0Enable : Option Bool := none
  ddc1Enable : Option Bool := none
  ddc2Enable : Option Bool := none
  attenuation : Option ℤ := none
  filter : Option FilterSel := none
  calibration : Option Bool := none
  systemEnable : Option Bool := none
  deriving DecidableEq, Repr

def boolVal (b : Bool) : ℤ := if b then 1 else 0

/-- The sequence of `UpdateParameter (id, value)` calls `ApplyConfig`
performs, in source order: DDC frequencies (passed through **without
scaling**), DDC enables, attenuation, calibration, system enable, and
the filter selection (clear all four filter enables, then set the
chosen one; an unrecognised name sets none). -/
def applyConfigUpdates (c : HardwareConfigM) : List (ℕ × ℤ) :=
  (match c.ddc0FreqMHz with | some v => [(11, v)] | none => [])
  ++ (match c.ddc1FreqMHz with | some v => [(13, v)] | none => [])
  ++ (match c.ddc2FreqMHz with | some v => [(15, v)] | none => [])
  ++ (match c.ddc0Enable with | some b => [(8, boolVal b)] | none => [])
  ++ (match c.ddc1Enable with | some b => [(9, boolVal b)] | none => [])
  ++ (match c.ddc2Enable with | some b => [(10, boolVal b)] | none => [])
  ++ (match c.attenuation with | some v => [(21, v)] | none => [])
  ++ (match c.calibration with | some b => [(23, boolVal b)] | none => [])
  ++ (match c.systemEnable with | some b => [(22, boolVal b)] | none => [])
  ++ (match c.filter with
      | some f =>
          [(17, 0), (18, 0), (19, 0), (20, 0)]
          ++ (match f with
              | .f500mhz => [(17, 1)]
              | .f1ghz => [(18, 1)]
              | .f2ghz => [(19, 1)]
              | .fbypass => [(20, 1)]
              | .other => [])
      | none => [])

/-! ## Channel demultiplexing
(`processAndWrite`, recording loop, lines 244–343) -/

/-- The body of the mask-accumulation loop: set an in-range index if
not already set, counting newly-set channels
(`if idx >= 0 && idx < numChannels { if !activeMask[idx] { ... } }`). -/
def maskStep (p : (ℕ → Bool) × ℕ) (idx : ℤ) : (ℕ → Bool) × ℕ :=
  if 0 ≤ idx ∧ idx < 8 then
    if p.1 idx.toNat then p
    else (Function.update p.1 idx.toNat true, p.2 + 1)
  else p

/-- The active-mask accumulation over `recChannels` (`[]int` in Go, so
entries are `ℤ`). -/
def buildMaskCount (recChannels : List ℤ) : (ℕ → Bool) × ℕ :=
  recChannels.foldl maskStep (fun _ => false, 0)

/-- The safety default: if no channel was selected, activate all
eight. -/
def effectiveMask (recChannels : List ℤ) : (ℕ → Bool) × ℕ :=
  if (buildMaskCount recChannels).2 = 0 then (fun _ => true, 8)
  else buildMaskCount recChannels

/-- The active channels of a mask, in ascending order
(the `for i := 0; i < numChannels; i++` scan building `ops`). -/
def activeChannels (mask : ℕ → Bool) : List ℕ :=
  (List.range 8).filter mask

/-- The four bytes copied for one selected channel
(`filteredData[wIdx..wIdx+3] = captureData[src..src+3]`). -/
def copyChannel (data : List ℕ) (src : ℕ) : List ℕ :=
  [data.getD src 0, data.getD (src + 1) 0,
   data.getD (src + 2) 0, data.getD (src + 3) 0]

/-- The output of one frame: the selected channels' bytes in `ops`
order (`ops` holds the source offsets `channel * 4`). -/
def frameOut (data : List ℕ) (baseSrc : ℕ) : List ℕ → List ℕ
  | [] => []
  | off :: rest => copyChannel data (baseSrc + off) ++ frameOut data baseSrc rest

/-- The filtering loop over frames `0 .. F-1`
(`baseSrc := fIdx * inputBlockSize`). -/
def filterFrames (data : List ℕ) (ops : List ℕ) : ℕ → List ℕ
  | 0 => []
  | f + 1 => filterFrames data ops f ++ frameOut data (f * 32) ops

/-- Phase 2 of `processAndWrite` for a given mask and active count: if
all eight channels are active write the raw buffer, otherwise filter
frame by frame using the ascending source offsets. -/
def demuxWrite (mask : ℕ → Bool) (activeCount : ℕ) (data : List ℕ) : List ℕ :=
  if activeCount = 8 then data
  else
    filterFrames data ((activeChannels mask).map (fun i => i * 4))
      (data.length / 32)

/-- The bytes `processAndWrite` persists for a requested channel list:
mask accumulation, safety default, then demultiplex. -/
def persistOutput (recChannels : List ℤ) (data : List ℕ) : List ℕ :=
  demuxWrite (effectiveMask recChannels).1 (effectiveMask recChannels).2 data

/-! ## Live-stream loop (`stream_loop_linux.go` lines 15–244)

One iteration of `runGlobalStreamLoop` as a function of the device-open
state and the per-iteration observations, mirroring the branch order of
the source: no-clients exit; recording yield; idle sleep; replay;
device open/read. -/

structure StreamObs where
  /-- `len(wsClients) == 0` -/
  noClients : Bool
  /-- `serverState.Recording` -/
  isRecording : Bool
  /-- `(replayMode || forceReplayUpdate) && len(replayData) > 0` -/
  replayActive : Bool
  /-- `!replayMode && !streamingEnabled && !forceReplayUpdate` -/
  streamIdle : Bool
  /-- `unix.Open` fails this iteration -/
  openFails : Bool
  /-- the read loop hits a read error this iteration -/
  readFails : Bool
  deriving DecidableEq, Repr

/-- What one loop iteration did. -/
structure StreamEffect where
  /-- the device-open state after the iteration -/
  deviceOpen : Bool
  /-- a device `read` was issued during the iteration -/
  didRead : Bool
  /-- the device was opened during the iteration -/
  didOpen : Bool
  /-- the loop returned (no clients) -/
  exited : Bool
  deriving DecidableEq, Repr

def streamStep (deviceOpen : Bool) (o : StreamObs) : StreamEffect :=
  if o.noClients then
    { deviceOpen := false, didRead := false, didOpen := false, exited := true }
  else if o.isRecording then
    -- "If Recording is active, we must yield the device!"
    { deviceOpen := false, didRead := false, didOpen := false, exited := false }
  else if o.streamIdle then
    { deviceOpen := deviceOpen, didRead := false, didOpen := false, exited := false }
  else if o.replayActive then
    { deviceOpen := false, didRead := false, didOpen := false, exited := false }
  else if deviceOpen then
    if o.readFails then
      { deviceOpen := false, didRead := true, didOpen := false, exited := false }
    else
      { deviceOpen := true, didRead := true, didOpen := false, exited := false }
  else if o.openFails then
    { deviceOpen := false, didRead := false, didOpen := false, exited := false }
  else if o.readFails then
    { deviceOpen := false, didRead := true, didOpen := true, exited := false }
  else
    { deviceOpen := true, didRead := true, didOpen := true, exited := false }

/-- The device-open state after a sequence of iterations, starting with
the device closed (`fd = -1`). -/
def streamRun (obs : List StreamObs) : Bool :=
  obs.foldl (fun s o => (streamStep s o).deviceOpen) false

/-! # Theorems -/

/-! ## C1: producer head alignment -/

theorem producerStep_inv (total blockSize head n : ℕ) (h32 : 32 ∣ total)
    (hpos : 0 < total) (hh : head % 32 = 0 ∧ head < total) :
    producerStep total blockSize head n % 32 = 0 ∧
    producerStep total blockSize head n < total := by
  unfold producerStep advanceHead
  by_cases hn : n / 32 * 32 > 0
  · simp only [hn, if_true]
    refine ⟨?_, Nat.mod_lt _ hpos⟩
    have hdvd : 32 ∣ (head + n / 32 * 32) % total := by
      rw [Nat.dvd_mod_iff h32]
      exact Nat.dvd_add (Nat.dvd_of_mod_eq_zero hh.1) (Dvd.intro_left (n / 32) rfl)
    omega
  · simp only [hn, if_false]
    exact hh

/-- **C1.** For every run of the DMA producer loop starting from a
freshly created ring whose payload size is a multiple of 32 (and
positive) with head 0: each iteration advances the head only by
`(n / 32) * 32` bytes modulo the payload size (`n` being the read
return), and every observable head value is a multiple of 32 and lies
in `[0, total)`. -/
theorem producer_head_aligned (total blockSize : ℕ)
    (h32 : 32 ∣ total) (hpos : 0 < total) :
    (∀ head n, producerStep total blockSize head n =
        if 32 ≤ n then advanceHead total head (n / 32 * 32) else head) ∧
    ∀ reads : List ℕ, producerRun total blockSize reads % 32 = 0 ∧
      producerRun total blockSize reads < total := by
  constructor
  · intro head n
    unfold producerStep
    rcases Nat.lt_or_ge n 32 with h | h
    · simp [Nat.div_eq_of_lt h, Nat.not_le.mpr h]
    · have : 0 < n / 32 * 32 :=
        Nat.mul_pos (Nat.div_pos h (by norm_num)) (by norm_num)
      simp [this, h]
  · intro reads
    have main : ∀ (l : List ℕ) (head : ℕ),
        head % 32 = 0 ∧ head < total →
        l.foldl (producerStep total blockSize) head % 32 = 0 ∧
        l.foldl (producerStep total blockSize) head < total := by
      intro l
      induction l with
      | nil => intro head hh; exact hh
      | cons n rest ih =>
          intro head hh
          exact ih _ (producerStep_inv total blockSize head n h32 hpos hh)
    exact main reads 0 ⟨by norm_num, hpos⟩

theorem producer_head_aligned_witness :
    (32 ∣ 1024) ∧ 0 < 1024 ∧
    producerRun 1024 64 [64, 31, 992, 64] % 32 = 0 ∧
    producerRun 1024 64 [64, 31, 992, 64] < 1024 :=
  ⟨by norm_num, by norm_num,
   ((producer_head_aligned 1024 64 (by norm_num) (by norm_num)).2
      [64, 31, 992, 64]).1,
   ((producer_head_aligned 1024 64 (by norm_num) (by norm_num)).2
      [64, 31, 992, 64]).2⟩

/-! ## C4: creation over an existing object -/

/-- **C4 counterexample.** With a pre-existing object of the correct
magic, `Create` silently returns the opened existing ring instead of
failing with an already-exists error. -/
theorem create_existing_counterexample :
    ringCreate (some ⟨MagicValue, 1024, 0, 0, 1⟩) 2048
      = .openedExisting ⟨MagicValue, 1024, 0, 0, 1⟩ ∧
    ringCreate (some ⟨MagicValue, 1024, 0, 0, 1⟩) 2048 ≠ .alreadyExists := by
  decide

/-- **C4 amended.** `Create` never fails with an already-exists error:
when the named object exists it falls back to `Open` (which validates
the magic); fresh semantics require removing the object first. -/
theorem create_existing_opens (pre : Option RingHeader) (size : ℕ) :
    ringCreate pre size ≠ .alreadyExists ∧
    ∀ ex, pre = some ex → ringCreate pre size = ringOpen ex := by
  cases pre with
  | none =>
      refine ⟨by simp [ringCreate], ?_⟩
      intro ex h
      cases h
  | some ex =>
      refine ⟨?_, ?_⟩
      · simp only [ringCreate, ringOpen]
        by_cases h : ex.magic = MagicValue <;> simp [h]
      · intro ex' h
        cases h
        rfl

theorem create_existing_opens_witness :
    ringCreate (some ⟨0, 8, 0, 0, 1⟩) 64 = ringOpen ⟨0, 8, 0, 0, 1⟩ :=
  (create_existing_opens (some ⟨0, 8, 0, 0, 1⟩) 64).2 _ rfl

/-! ## C6: DDC frequency scaling -/

/-- **C6 counterexample.** The configuration-application path does not
scale: `ApplyConfig` with `ddc0_freq_mhz = 125` issues
`UpdateParameter(DDC0_FMIX, 125)` unconditionally, while the claim
(with `actual_ibw = 244.5 MHz`) requires the written value to be
`round(125 × 250 / 244.5) = 128`. -/
theorem ddc_config_path_counterexample :
    applyConfigUpdates { ddc0FreqMHz := some 125 } = [(11, 125)] ∧
    setDDCHwVal 125 (489 / 2) = 128 ∧ (125 : ℤ) ≠ 128 := by
  refine ⟨rfl, ?_, by decide⟩
  unfold setDDCHwVal goRound DesignClockMHz
  norm_num

/-- **C6 amended.** `setDDCFrequency` writes
`round(f × design_clock / actual_ibw)` with `design_clock = 250 MHz`:
requesting 125 MHz writes 125 at `actual_ibw = 250 MHz` and 128 at
`actual_ibw = 244.5 MHz`, to the `DDCx_FMIX` parameter of the given
DDC index; the configuration-application path (`ApplyConfig`),
however, passes the configured MHz value through unscaled. -/
theorem ddc_frequency_scaling :
    setDDCFrequencyCall 0 125 250 = some (11, 125) ∧
    setDDCFrequencyCall 0 125 (489 / 2) = some (11, 128) ∧
    (∀ f c : ℚ, setDDCFrequencyCall 1 f c = some (13, goRound (f * (250 / c))) ∧
      setDDCFrequencyCall 2 f c = some (15, goRound (f * (250 / c)))) ∧
    ∀ v : ℤ, applyConfigUpdates { ddc0FreqMHz := some v } = [(11, v)] := by
  refine ⟨?_, ?_, ?_, ?_⟩
  · show some (11, setDDCHwVal 125 250) = some (11, 125)
    have : setDDCHwVal 125 250 = 125 := by
      unfold setDDCHwVal goRound DesignClockMHz
      norm_num
    rw [this]
  · show some (11, setDDCHwVal 125 (489 / 2)) = some (11, 128)
    have : setDDCHwVal 125 (489 / 2) = 128 := by
      unfold setDDCHwVal goRound DesignClockMHz
      norm_num
    rw [this]
  · intro f c
    exact ⟨rfl, rfl⟩
  · intro v
    rfl

/-! ## C9: the live-stream loop yields the device while recording -/

/-- **C9.** Whenever an iteration of the live-stream loop observes the
recording flag set, the post-iteration state holds no open descriptor
on the C2H device and no read was issued in that iteration; the device
is only ever opened in an iteration that observed the flag clear; and
hence after any run of the loop whose last iteration observed the flag
set, the task holds no descriptor. -/
theorem stream_yields_when_recording :
    (∀ (s : Bool) (o : StreamObs), o.isRecording = true →
        (streamStep s o).deviceOpen = false ∧ (streamStep s o).didRead = false) ∧
    (∀ (s : Bool) (o : StreamObs), (streamStep s o).didOpen = true →
        o.isRecording = false) ∧
    ∀ (obs : List StreamObs) (o : StreamObs), o.isRecording = true →
      streamRun (obs ++ [o]) = false := by
  have h1 : ∀ (s : Bool) (o : StreamObs), o.isRecording = true →
      (streamStep s o).deviceOpen = false ∧ (streamStep s o).didRead = false := by
    intro s o h
    rcases o with ⟨nc, rec, rp, si, opf, rdf⟩
    cases h
    revert s nc rp si opf rdf
    decide
  refine ⟨h1, ?_, ?_⟩
  · intro s o
    rcases o with ⟨nc, rec, rp, si, opf, rdf⟩
    revert s nc rec rp si opf rdf
    decide
  · intro obs o h
    unfold streamRun
    rw [List.foldl_append]
    exact (h1 _ o h).1

theorem stream_yields_when_recording_witness :
    (streamStep true ⟨false, true, false, false, false, false⟩).deviceOpen = false ∧
    streamRun [⟨false, false, false, false, false, true⟩,
               ⟨false, true, false, false, false, false⟩] = false :=
  ⟨(stream_yields_when_recording.1 true ⟨false, true, false, false, false, false⟩ rfl).1,
   stream_yields_when_recording.2.2 [⟨false, false, false, false, false, true⟩]
     ⟨false, true, false, false, false, false⟩ rfl⟩

/-! ## Demultiplexer lemmas -/

theorem frameOut_length (data : List ℕ) (b : ℕ) (ops : List ℕ) :
    (frameOut data b ops).length = 4 * ops.length := by
  induction ops with
  | nil => rfl
  | cons off rest ih =>
      simp [frameOut, copyChannel, ih]
      omega

theorem filterFrames_length (data ops : List ℕ) (F : ℕ) :
    (filterFrames data ops F).length = F * (4 * ops.length) := by
  induction F with
  | zero => simp [filterFrames]
  | succ F ih =>
      simp [filterFrames, ih, frameOut_length]
      ring

theorem frameOut_getD (data : List ℕ) (b : ℕ) (ops : List ℕ) :
    ∀ i j, i < ops.length → j < 4 →
      (frameOut data b ops).getD (4 * i + j) 0
        = data.getD (b + ops.getD i 0 + j) 0 := by
  induction ops with
  | nil => intro i j hi _; exact absurd hi (by simp)
  | cons off rest ih =>
      intro i j hi hj
      cases i with
      | zero =>
          rw [frameOut, List.getD_append _ _ _ _ (by simp [copyChannel]; omega)]
          interval_cases j <;> simp [copyChannel, List.getD]
      | succ i =>
          rw [frameOut, List.getD_append_right _ _ _ _ (by simp [copyChannel]; omega)]
          have : 4 * (i + 1) + j - (copyChannel data (b + off)).length = 4 * i + j := by
            simp [copyChannel]; omega
          rw [this, ih i j (by simpa using hi) hj]
          simp [List.getD]

theorem filterFrames_getD (data ops : List ℕ) :
    ∀ F f r, f < F → r < 4 * ops.length →
      (filterFrames data ops F).getD (f * (4 * ops.length) + r) 0
        = (frameOut data (f * 32) ops).getD r 0 := by
  intro F
  induction F with
  | zero => intro f r hf; omega
  | succ F ih =>
      intro f r hf hr
      rcases Nat.lt_or_ge f F with hfF | hfF
      · rw [filterFrames, List.getD_append _ _ _ _ ?_]
        · exact ih f r hfF hr
        · rw [filterFrames_length]
          calc f * (4 * ops.length) + r < f * (4 * ops.length) + 4 * ops.length := by omega
            _ = (f + 1) * (4 * ops.length) := by ring
            _ ≤ F * (4 * ops.length) := Nat.mul_le_mul_right _ (by omega)
      · have hfF' : f = F := by omega
        subst hfF'
        rw [filterFrames, List.getD_append_right _ _ _ _ (by rw [filterFrames_length]; omega)]
        rw [filterFrames_length]
        congr 1
        omega

/-! ## Mask accumulation lemmas -/

theorem filter_update_length (l : List ℕ) (m : ℕ → Bool) (i : ℕ)
    (hnd : l.Nodup) (hmem : i ∈ l) (hmi : m i = false) :
    (l.filter (Function.update m i true)).length = (l.filter m).length + 1 := by
  induction l with
  | nil => cases hmem
  | cons a rest ih =>
      rw [List.nodup_cons] at hnd
      rcases List.mem_cons.mp hmem with heq | hmem'
      · subst heq
        have hrest : rest.filter (Function.update m i true) = rest.filter m := by
          apply List.filter_congr
          intro x hx
          have hne : x ≠ i := fun h => hnd.1 (h ▸ hx)
          simp [Function.update_apply, hne]
        simp [List.filter_cons, Function.update_same, hmi, hrest]
      · have hne : a ≠ i := fun h => hnd.1 (h ▸ hmem')
        have hup : Function.update m i true a = m a := by
          simp [Function.update_apply, hne]
        rw [List.filter_cons, List.filter_cons, hup]
        cases hma : m a <;>
          simp [hma, ih hnd.2 hmem']

theorem buildMaskCount_invariant (rec : List ℤ) :
    ∀ (m : ℕ → Bool) (c : ℕ), (∀ n, m n = true → n < 8) →
      c = ((List.range 8).filter m).length →
      (∀ n, (rec.foldl maskStep (m, c)).1 n = true → n < 8) ∧
      (rec.foldl maskStep (m, c)).2
        = ((List.range 8).filter ((rec.foldl maskStep (m, c)).1)).length := by
  induction rec with
  | nil => intro m c h1 h2; exact ⟨h1, h2⟩
  | cons idx rest ih =>
      intro m c h1 h2
      rw [List.foldl_cons]
      unfold maskStep
      by_cases hv : 0 ≤ idx ∧ idx < 8
      · rw [if_pos hv]
        by_cases hset : m idx.toNat
        · simp only [hset, if_pos]
          exact ih m c h1 h2
        · simp only [hset, Bool.false_eq_true, if_neg, not_false_iff]
          apply ih
          · intro n hn
            by_cases hni : n = idx.toNat
            · omega
            · apply h1
              rwa [Function.update_apply, if_neg hni] at hn
          · rw [filter_update_length (List.range 8) m idx.toNat
              (List.nodup_range 8) (List.mem_range.mpr (by omega))
              (by simpa using hset), h2]
      · rw [if_neg hv]
        exact ih m c h1 h2

/-- The count carried by `buildMaskCount` equals the number of active
channels of the final mask, and the mask only sets channels below 8. -/
theorem buildMaskCount_count (rec : List ℤ) :
    (∀ n, (buildMaskCount rec).1 n = true → n < 8) ∧
    (buildMaskCount rec).2 = (activeChannels (buildMaskCount rec).1).length :=
  buildMaskCount_invariant rec (fun _ => false) 0 (by simp) (by simp)

theorem effectiveMask_count (rec : List ℤ) :
    (effectiveMask rec).2 = (activeChannels (effectiveMask rec).1).length ∧
    (effectiveMask rec).2 ≠ 0 := by
  unfold effectiveMask
  by_cases h : (buildMaskCount rec).2 = 0
  · rw [if_pos h]
    constructor
    · simp [activeChannels]
    · simp
  · rw [if_neg h]
    exact ⟨(buildMaskCount_count rec).2, h⟩

/-! ## C2: demultiplex correctness -/

/-- **C2.** For a captured buffer of `F` whole 32-byte frames and the
(non-empty, ascending) active channel set `A` of a recording request:
if all eight channels are active the persisted output is the buffer
verbatim; otherwise it has `F * |A| * 4` bytes and byte `4i + j` of
output frame `f` equals byte `4 * Aᵢ + j` of input frame `f`. -/
theorem demux_correct (recChannels : List ℤ) (data : List ℕ) (F : ℕ)
    (hlen : data.length = F * 32) :
    (activeChannels (effectiveMask recChannels).1).length ≠ 0 ∧
    ((activeChannels (effectiveMask recChannels).1).length = 8 →
      persistOutput recChannels data = data) ∧
    ((activeChannels (effectiveMask recChannels).1).length ≠ 8 →
      (persistOutput recChannels data).length
          = F * (activeChannels (effectiveMask recChannels).1).length * 4 ∧
      ∀ f < F, ∀ i < (activeChannels (effectiveMask recChannels).1).length,
        ∀ j < 4,
        (persistOutput recChannels data).getD
            (f * (4 * (activeChannels (effectiveMask recChannels).1).length)
              + 4 * i + j) 0
          = data.getD
              (f * 32
                + 4 * (activeChannels (effectiveMask recChannels).1).getD i 0
                + j) 0) := by
  obtain ⟨hc, hc0⟩ := effectiveMask_count recChannels
  set A := activeChannels (effectiveMask recChannels).1 with hA
  set ops := A.map (fun i => i * 4) with hops
  have hopslen : ops.length = A.length := List.length_map _ _
  refine ⟨by rw [← hc]; exact hc0, ?_, ?_⟩
  · intro h8
    unfold persistOutput demuxWrite
    rw [← hA, hc, if_pos h8]
  · intro h8
    have hF : data.length / 32 = F := by rw [hlen]; omega
    have hout : persistOutput recChannels data = filterFrames data ops F := by
      unfold persistOutput demuxWrite
      rw [← hA, hc, if_neg h8, hF, hops]
    constructor
    · rw [hout, filterFrames_length, hopslen]
      ring
    · intro f hf i hi j hj
      have hi' : i < ops.length := by rw [hopslen]; exact hi
      have hr : 4 * i + j < 4 * ops.length := by rw [hopslen]; omega
      have hidx : f * (4 * A.length) + 4 * i + j
          = f * (4 * ops.length) + (4 * i + j) := by
        rw [hopslen]; ring
      have hkey := filterFrames_getD data ops F f (4 * i + j) hf hr
      have hkey2 := frameOut_getD data (f * 32) ops i j hi' hj
      have hmapget : ops.getD i 0 = A.getD i 0 * 4 := by
        rw [List.getD_eq_getElem _ _ hi', List.getD_eq_getElem _ _ hi]
        simp [hops]
      rw [hout, hidx, hkey, hkey2, hmapget]
      congr 1
      ring

theorem demux_correct_witness :
    (List.range 64).length = 2 * 32 ∧
    (activeChannels (effectiveMask [0, 2]).1).length ≠ 8 ∧
    (persistOutput [0, 2] (List.range 64)).length
      = 2 * (activeChannels (effectiveMask [0, 2]).1).length * 4 :=
  ⟨by decide, by decide,
   ((demux_correct [0, 2] (List.range 64) 2 (by decide)).2.2 (by decide)).1⟩

/-! ## C10: channel-list sanitising -/

theorem foldl_maskStep_invalid (rec : List ℤ) (p : (ℕ → Bool) × ℕ)
    (hinv : ∀ c ∈ rec, ¬(0 ≤ c ∧ c < 8)) :
    rec.foldl maskStep p = p := by
  induction rec generalizing p with
  | nil => rfl
  | cons idx rest ih =>
      rw [List.foldl_cons]
      have h1 : maskStep p idx = p := by
        unfold maskStep
        rw [if_neg (hinv idx (List.mem_cons_self idx rest))]
      rw [h1]
      exact ih p (fun c hc => hinv c (List.mem_cons_of_mem _ hc))

theorem buildMask_mem_aux (rec : List ℤ) :
    ∀ (m : ℕ → Bool) (c : ℕ) (n : ℕ), n < 8 →
      ((rec.foldl maskStep (m, c)).1 n = true ↔ m n = true ∨ (n : ℤ) ∈ rec) := by
  induction rec with
  | nil => intro m c n _; simp
  | cons idx rest ih =>
      intro m c n hn
      rw [List.foldl_cons]
      by_cases hv : 0 ≤ idx ∧ idx < 8
      · by_cases hset : m idx.toNat = true
        · have hstep : maskStep (m, c) idx = (m, c) := by
            unfold maskStep
            rw [if_pos hv, if_pos hset]
          rw [hstep, ih m c n hn]
          constructor
          · rintro (h | h)
            · exact Or.inl h
            · exact Or.inr (List.mem_cons_of_mem _ h)
          · rintro (h | h)
            · exact Or.inl h
            · rcases List.mem_cons.mp h with heq | hmem
              · left
                have hn' : n = idx.toNat := by omega
                rw [hn']
                exact hset
              · exact Or.inr hmem
        · have hstep : maskStep (m, c) idx
              = (Function.update m idx.toNat true, c + 1) := by
            unfold maskStep
            rw [if_pos hv, if_neg hset]
          rw [hstep, ih _ _ n hn, Function.update_apply]
          by_cases hni : n = idx.toNat
          · have hiz : (n : ℤ) = idx := by omega
            constructor
            · intro _
              exact Or.inr (List.mem_cons.mpr (Or.inl hiz))
            · intro _
              left
              rw [if_pos hni]
          · have hiz : (n : ℤ) ≠ idx := by omega
            simp [hni, hiz]
      · have hstep : maskStep (m, c) idx = (m, c) := by
          unfold maskStep
          rw [if_neg hv]
        rw [hstep, ih m c n hn]
        have hiz : (n : ℤ) ≠ idx := by omega
        simp [hiz]

/-- **C10.** If the requested channel list is empty or contains only
indices outside `0..7`, the persist phase defaults to all eight
channels and writes the captured buffer verbatim; for any list, an
in-range channel is active in the accumulated mask exactly when it
occurs in the list (so duplicates and out-of-range entries are
ignored), and the active count is the number of distinct active
channels. -/
theorem recording_channel_failsafe (recChannels : List ℤ) (data : List ℕ) :
    ((∀ c ∈ recChannels, c < 0 ∨ 8 ≤ c) →
        effectiveMask recChannels = (fun _ => true, 8) ∧
        persistOutput recChannels data = data) ∧
    (∀ n : ℕ, n < 8 →
        ((buildMaskCount recChannels).1 n = true ↔ (n : ℤ) ∈ recChannels)) ∧
    (buildMaskCount recChannels).2
      = (activeChannels (buildMaskCount recChannels).1).length := by
  refine ⟨?_, ?_, (buildMaskCount_count recChannels).2⟩
  · intro hinv
    have hbm : buildMaskCount recChannels = (fun _ => false, 0) :=
      foldl_maskStep_invalid recChannels _ (fun c hc => by
        have := hinv c hc
        omega)
    have hem : effectiveMask recChannels = (fun _ => true, 8) := by
      unfold effectiveMask
      rw [hbm]
      simp
    refine ⟨hem, ?_⟩
    unfold persistOutput
    rw [hem]
    unfold demuxWrite
    rw [if_pos rfl]
  · intro n hn
    rw [buildMaskCount, buildMask_mem_aux recChannels _ _ n hn]
    simp

theorem recording_channel_failsafe_witness :
    persistOutput [9, -1] [1, 2, 3] = [1, 2, 3] :=
  ((recording_channel_failsafe [9, -1] [1, 2, 3]).1 (by decide)).2

/-! ## C5: BRAM parameter-table layout -/

/-- **C5 counterexample.** For `ATTENUATION_BVAL` (table index 21,
name length 16, a multiple of 4, entry at word 206, name words at
212–215), `programBRAM` writes nothing at word 216 and places the
entry end token `0xEEEEEEEE` at word 217 — one word *after* the word
immediately following the last name word, contradicting the claimed
layout. -/
theorem programBRAM_gap_counterexample :
    qcWrites.filter (fun p => p.1 == 216) = [] ∧
    (215, 1279350338) ∈ qcWrites ∧
    (217, 0xEEEEEEEE) ∈ qcWrites ∧
    (206, 0xCCCCCCCC) ∈ qcWrites ∧
    (207, 21) ∈ qcWrites ∧
    (208, 16) ∈ qcWrites := by
  refine ⟨by decide, by decide, by decide, by decide, by decide, by decide⟩

set_option synthInstance.maxSize 3000

/-- **C5 amended.** Every parameter entry is written as the words
`[0xCCCCCCCC, id, name_len, 3, value, 0xBBBBBBBB, name_words…,
0xEEEEEEEE]` with the name packed 4 ASCII bytes per little-endian
word and zero-padded so that decoding yields the name followed by
only zero bytes; the end token occupies the word immediately after
the last name word **when the name length is not a multiple of 4**,
but when it is a multiple of 4 the code skips one word, leaving an
unwritten gap word between the last name word and the end token; the
next entry starts in the word after the end token, and the trailer
`[0xABABABAB, 0xEEEEEEEE]` immediately follows the last entry. -/
theorem programBRAM_layout_amended :
    (∀ i, i < 24 →
      (qcEntry i).1 = i ∧
      (entryAddr qcParamTable i, 0xCCCCCCCC) ∈ qcWrites ∧
      (entryAddr qcParamTable i + 1, i) ∈ qcWrites ∧
      (entryAddr qcParamTable i + 2, (qcEntry i).2.length) ∈ qcWrites ∧
      (entryAddr qcParamTable i + 3, 3) ∈ qcWrites ∧
      (entryAddr qcParamTable i + 4, u32z (qcDefaultShadow (qcEntry i).1)) ∈ qcWrites ∧
      (entryAddr qcParamTable i + 5, 0xBBBBBBBB) ∈ qcWrites) ∧
    (∀ i, i < 24 → ∀ j, j < (nameWords (qcEntry i).2).length →
      (entryAddr qcParamTable i + 6 + j, (nameWords (qcEntry i).2).getD j 0)
        ∈ qcWrites) ∧
    (∀ i, i < 24 →
      (entryAddr qcParamTable i + 6 + (qcEntry i).2.length / 4 + 1, 0xEEEEEEEE)
        ∈ qcWrites) ∧
    (∀ i, i < 24 → (qcEntry i).2.length % 4 ≠ 0 →
      (qcEntry i).2.length / 4 + 1 = (nameWords (qcEntry i).2).length) ∧
    (∀ i, i < 24 → (qcEntry i).2.length % 4 = 0 →
      (qcEntry i).2.length / 4 = (nameWords (qcEntry i).2).length ∧
      qcWrites.filter
        (fun q => q.1 == entryAddr qcParamTable i + 6 + (nameWords (qcEntry i).2).length)
          = []) ∧
    (∀ i, i < 24 →
      decodeWords (nameWords (qcEntry i).2)
        = (qcEntry i).2 ++ List.replicate ((4 - (qcEntry i).2.length % 4) % 4) 0) ∧
    (∀ i, i < 24 →
      entryAddr qcParamTable (i + 1)
        = entryAddr qcParamTable i + 6 + (qcEntry i).2.length / 4 + 2) ∧
    (entryAddr qcParamTable 24, 0xABABABAB) ∈ qcWrites ∧
    (entryAddr qcParamTable 24 + 1, 0xEEEEEEEE) ∈ qcWrites := by
  refine ⟨by decide, by decide, by decide, by decide, by decide, by decide,
    by decide, by decide, by decide⟩

/-! ## BRAM write-address accounting -/

theorem entryWrites_addr_lb (addr idx : ℕ) (name : List ℕ) (v : ℤ) :
    ∀ q ∈ entryWrites addr idx name v, addr ≤ q.1 := by
  intro q hq
  unfold entryWrites at hq
  rcases List.mem_append.mp hq with h12 | hlast
  · rcases List.mem_append.mp h12 with h6 | hmap
    · fin_cases h6 <;> simp
    · obtain ⟨p, _, rfl⟩ := List.mem_map.mp hmap
      simp only []
      omega
  · rw [List.mem_singleton] at hlast
    subst hlast
    simp only []
    omega

theorem programEntries_addr_lb (shadow : ℕ → ℤ) :
    ∀ (table : List (ℕ × List ℕ)) (addr idx : ℕ),
      (∀ q ∈ (programEntries shadow table addr idx).1, addr ≤ q.1) ∧
      addr ≤ (programEntries shadow table addr idx).2 := by
  intro table
  induction table with
  | nil =>
      intro addr idx
      refine ⟨?_, le_refl addr⟩
      intro q hq
      simp only [programEntries, List.not_mem_nil] at hq
  | cons hd rest ih =>
      intro addr idx
      obtain ⟨id, name⟩ := hd
      obtain ⟨ihm, ihe⟩ := ih (addr + 8 + name.length / 4) (idx + 1)
      constructor
      · intro q hq
        simp only [programEntries] at hq
        rcases List.mem_append.mp hq with h | h
        · exact entryWrites_addr_lb addr idx name (shadow id) q h
        · have := ihm q h
          omega
      · simp only [programEntries]
        omega

/-- Every `programBRAM` write lands at word 0, 5, 6 or at word 7 or
beyond; in particular the status word (word 1) is never written. -/
theorem programWrites_addr_cases (shadow : ℕ → ℤ) (table : List (ℕ × List ℕ)) :
    ∀ q ∈ programWrites shadow table,
      q.1 = 0 ∨ q.1 = 5 ∨ q.1 = 6 ∨ 7 ≤ q.1 := by
  intro q hq
  unfold programWrites at hq
  obtain ⟨hm, he⟩ := programEntries_addr_lb shadow table 7 0
  rcases List.mem_append.mp hq with h12 | htrailer
  · rcases List.mem_append.mp h12 with h3 | hent
    · fin_cases h3 <;> simp
    · have := hm q hent
      omega
  · rw [List.mem_cons, List.mem_singleton] at htrailer
    rcases htrailer with h | h <;> (subst h; simp; omega)

theorem applyWrites_append (mem : ℕ → ℕ) (tr1 tr2 : List Event) :
    applyWrites mem (tr1 ++ tr2) = applyWrites (applyWrites mem tr1) tr2 := by
  unfold applyWrites
  rw [List.foldl_append]

theorem applyWrites_map_wr_ne (ws : List (ℕ × ℕ)) (a : ℕ)
    (h : ∀ q ∈ ws, q.1 ≠ a) :
    ∀ mem : ℕ → ℕ,
      applyWrites mem (ws.map (fun p => Event.wr p.1 p.2)) a = mem a := by
  induction ws with
  | nil => intro mem; rfl
  | cons q rest ih =>
      intro mem
      have hne : q.1 ≠ a := h q (List.mem_cons_self q rest)
      have hrest : ∀ p ∈ rest, p.1 ≠ a :=
        fun p hp => h p (List.mem_cons_of_mem _ hp)
      simp only [List.map_cons]
      show applyWrites (Function.update mem q.1 q.2)
        (rest.map (fun p => Event.wr p.1 p.2)) a = mem a
      rw [ih hrest, Function.update_apply, if_neg (fun hh => hne hh.symm)]

/-! ## C8: schema setup -/

/-- **C8.** For a passive device (reads 1 and 2 return the running
status value): when the schema-setup operation observes bit 27 set it
programs the parameter table, sets bit 26 by read-modify-write, sleeps
exactly 50 ms, and clears bit 26 by read-modify-write; afterwards BRAM
words 0x00/0x05/0x06 hold `0xDEADBEEF`/parameter-count/`0xDEADBEEF`,
the status word has bit 26 low and bit 27 unchanged, and every host
status write preserves the observed bit 27.  When bit 27 is observed
clear, the operation performs no writes at all. -/
theorem setupBRAM_spec (oracle : ℕ → ℕ) (shadow : ℕ → ℤ)
    (table : List (ℕ × List ℕ))
    (h1 : u32 (oracle 1) = u32 (oracle 0))
    (h2 : u32 (oracle 2) = u32 (oracle 0) ||| 2 ^ 26) :
    ((u32 (oracle 0)).testBit 27 = true →
      setupBRAMRun oracle shadow table
        = Event.rd 1 (u32 (oracle 0))
            :: ((programWrites shadow table).map (fun p => Event.wr p.1 p.2)
          ++ [Event.rd 1 (u32 (oracle 0)),
              Event.wr 1 (u32 (oracle 0) ||| 2 ^ 26),
              Event.sleepMs 50,
              Event.rd 1 (u32 (oracle 0) ||| 2 ^ 26),
              Event.wr 1 (clearBit32 (u32 (oracle 0) ||| 2 ^ 26) 26)]) ∧
      (∀ mem : ℕ → ℕ,
        applyWrites mem (setupBRAMRun oracle shadow table) 0 = 0xDEADBEEF ∧
        applyWrites mem (setupBRAMRun oracle shadow table) 5 = u32 table.length ∧
        applyWrites mem (setupBRAMRun oracle shadow table) 6 = 0xDEADBEEF ∧
        (applyWrites mem (setupBRAMRun oracle shadow table) 1).testBit 26 = false ∧
        (applyWrites mem (setupBRAMRun oracle shadow table) 1).testBit 27
          = (u32 (oracle 0)).testBit 27) ∧
      (∀ v, Event.wr 1 v ∈ setupBRAMRun oracle shadow table →
        v.testBit 27 = (u32 (oracle 0)).testBit 27)) ∧
    ((u32 (oracle 0)).testBit 27 = false →
      setupBRAMRun oracle shadow table = [Event.rd 1 (u32 (oracle 0))]) := by
  have hclear26 : ∀ x : ℕ, (clearBit32 x 26).testBit 26 = false := by
    intro x
    unfold clearBit32
    rw [Nat.testBit_land,
      show (2 ^ 32 - 1 - 2 ^ 26 : ℕ).testBit 26 = false from by decide,
      Bool.and_false]
  have hclear27 : ∀ x : ℕ, (clearBit32 x 26).testBit 27 = x.testBit 27 := by
    intro x
    unfold clearBit32
    rw [Nat.testBit_land,
      show (2 ^ 32 - 1 - 2 ^ 26 : ℕ).testBit 27 = true from by decide,
      Bool.and_true]
  have hlor27 : ∀ x : ℕ, (x ||| 2 ^ 26).testBit 27 = x.testBit 27 := by
    intro x
    rw [Nat.testBit_lor,
      show (2 ^ 26 : ℕ).testBit 27 = false from by decide,
      Bool.or_false]
  constructor
  · intro hbit
    have htr : setupBRAMRun oracle shadow table
        = Event.rd 1 (u32 (oracle 0))
            :: ((programWrites shadow table).map (fun p => Event.wr p.1 p.2)
          ++ [Event.rd 1 (u32 (oracle 0)),
              Event.wr 1 (u32 (oracle 0) ||| 2 ^ 26),
              Event.sleepMs 50,
              Event.rd 1 (u32 (oracle 0) ||| 2 ^ 26),
              Event.wr 1 (clearBit32 (u32 (oracle 0) ||| 2 ^ 26) 26)]) := by
      simp only [setupBRAMRun, h1, h2, hbit, if_true]
      rfl
    have haddr : ∀ q ∈ programWrites shadow table,
        q.1 = 0 ∨ q.1 = 5 ∨ q.1 = 6 ∨ 7 ≤ q.1 :=
      programWrites_addr_cases shadow table
    refine ⟨htr, ?_, ?_⟩
    · intro mem
      have hsplit : applyWrites mem (setupBRAMRun oracle shadow table)
          = Function.update
              (Function.update
                (applyWrites mem
                  ((programWrites shadow table).map (fun p => Event.wr p.1 p.2)))
                1 (u32 (oracle 0) ||| 2 ^ 26))
              1 (clearBit32 (u32 (oracle 0) ||| 2 ^ 26) 26) := by
        rw [htr]
        show applyWrites mem
          ((programWrites shadow table).map (fun p => Event.wr p.1 p.2) ++ _) = _
        rw [applyWrites_append]
        rfl
      have hprogAt : ∀ a : ℕ, a = 0 ∨ a = 5 ∨ a = 6 →
          applyWrites mem
            ((programWrites shadow table).map (fun p => Event.wr p.1 p.2)) a
          = Function.update (Function.update (Function.update mem 0 0xDEADBEEF)
              5 (u32 table.length)) 6 0xDEADBEEF a := by
        intro a ha
        have hfirst : applyWrites mem
            (([(0, 0xDEADBEEF), (5, u32 table.length),
               (6, 0xDEADBEEF)] : List (ℕ × ℕ)).map (fun p => Event.wr p.1 p.2))
            = Function.update (Function.update (Function.update mem 0 0xDEADBEEF)
                5 (u32 table.length)) 6 0xDEADBEEF := rfl
        obtain ⟨hm, he⟩ := programEntries_addr_lb shadow table 7 0
        unfold programWrites
        rw [List.append_assoc, List.map_append, applyWrites_append, hfirst,
          List.map_append, applyWrites_append,
          applyWrites_map_wr_ne _ a (by
            intro q hq
            rw [List.mem_cons, List.mem_singleton] at hq
            rcases hq with h | h <;> (subst h; simp only []; omega)),
          applyWrites_map_wr_ne _ a (by
            intro q hq
            have := hm q hq
            omega)]
      have hupd_ne : ∀ (f : ℕ → ℕ) (b v a : ℕ), b ≠ a →
          Function.update f b v a = f a := by
        intro f b v a hba
        rw [Function.update_apply, if_neg (fun hh => hba hh.symm)]
      refine ⟨?_, ?_, ?_, ?_, ?_⟩
      · rw [hsplit, hupd_ne _ _ _ _ (by omega), hupd_ne _ _ _ _ (by omega),
          hprogAt 0 (by omega)]
        simp [Function.update_apply]
      · rw [hsplit, hupd_ne _ _ _ _ (by omega), hupd_ne _ _ _ _ (by omega),
          hprogAt 5 (by omega)]
        simp [Function.update_apply]
      · rw [hsplit, hupd_ne _ _ _ _ (by omega), hupd_ne _ _ _ _ (by omega),
          hprogAt 6 (by omega)]
        simp [Function.update_apply]
      · rw [hsplit, Function.update_same, hclear26]
      · rw [hsplit, Function.update_same, hclear27, hlor27]
    · intro v hv
      rw [htr] at hv
      rcases List.mem_cons.mp hv with h | h
      · simp at h
      rcases List.mem_append.mp h with h | h
      · obtain ⟨q, hq, heq⟩ := List.mem_map.mp h
        injection heq with ha hb
        have := haddr q hq
        omega
      · simp only [List.mem_cons, List.not_mem_nil, or_false] at h
        rcases h with h | h | h | h | h
        · simp at h
        · injection h with ha hb
          subst hb
          exact hlor27 _
        · simp at h
        · simp at h
        · injection h with ha hb
          subst hb
          rw [hclear27, hlor27]
  · intro hbit
    simp only [setupBRAMRun, hbit]
    rfl

theorem setupBRAM_spec_witness :
    applyWrites (fun _ => 0)
      (setupBRAMRun (fun i => [0x08000000, 0x08000000, 0x0C000000].getD i 0)
        qcDefaultShadow qcParamTable) 0 = 0xDEADBEEF ∧
    (applyWrites (fun _ => 0)
      (setupBRAMRun (fun i => [0x08000000, 0x08000000, 0x0C000000].getD i 0)
        qcDefaultShadow qcParamTable) 1).testBit 26 = false :=
  have h := setupBRAM_spec (fun i => [0x08000000, 0x08000000, 0x0C000000].getD i 0)
    qcDefaultShadow qcParamTable (by decide) (by decide)
  ⟨((h.1 (by decide)).2.1 (fun _ => 0)).1,
   ((h.1 (by decide)).2.1 (fun _ => 0)).2.2.2.1⟩

/-! ## Poll-loop characterisation -/

theorem pollStatus_spec (oracle : ℕ → ℕ) (cond : ℕ → Bool) :
    ∀ budget ridx : ℕ,
      (pollStatus oracle cond budget ridx
          = (pollFails oracle ridx budget, none, ridx + budget) ∧
        ∀ t < budget, cond (u32 (oracle (ridx + t))) = false) ∨
      ∃ L < budget,
        pollStatus oracle cond budget ridx
          = (pollFails oracle ridx L ++ [Event.rd 1 (u32 (oracle (ridx + L)))],
             some (u32 (oracle (ridx + L))), ridx + L + 1) ∧
        (∀ t < L, cond (u32 (oracle (ridx + t))) = false) ∧
        cond (u32 (oracle (ridx + L))) = true := by
  intro budget
  induction budget with
  | zero =>
      intro ridx
      left
      constructor
      · simp [pollStatus, pollFails]
      · intro t ht
        omega
  | succ b ih =>
      intro ridx
      by_cases hc : cond (u32 (oracle ridx)) = true
      · right
        refine ⟨0, Nat.succ_pos b, ?_, ?_, ?_⟩
        · simp [pollStatus, hc, pollFails]
        · intro t ht
          omega
        · simpa using hc
      · rw [Bool.not_eq_true] at hc
        rcases ih (ridx + 1) with ⟨heq, hfails⟩ | ⟨L, hL, heq, hfails, hsucc⟩
        · left
          constructor
          · simp only [pollStatus, hc, Bool.false_eq_true, if_false]
            rw [heq]
            show (_, _, _) = (_, _, _)
            rw [show ridx + 1 + b = ridx + (b + 1) from by omega]
            simp [pollFails]
          · intro t ht
            cases t with
            | zero => simpa using hc
            | succ t =>
                have := hfails t (by omega)
                rw [show ridx + (t + 1) = ridx + 1 + t from by omega]
                exact this
        · right
          refine ⟨L + 1, by omega, ?_, ?_, ?_⟩
          · simp only [pollStatus, hc, Bool.false_eq_true, if_false]
            rw [heq]
            show (_, _, _) = (_, _, _)
            rw [show ridx + 1 + L = ridx + (L + 1) from by omega]
            simp [pollFails]
          · intro t ht
            cases t with
            | zero => simpa using hc
            | succ t =>
                have := hfails t (by omega)
                rw [show ridx + (t + 1) = ridx + 1 + t from by omega]
                exact this
          · rw [show ridx + (L + 1) = ridx + 1 + L from by omega]
            exact hsucc

theorem updateBRAMRun_cases (oracle : ℕ → ℕ) (budget : ℕ) (shadow : ℕ → ℤ)
    (table : List (ℕ × List ℕ)) (k : ℕ) :
    ∃ L1, (∀ t < L1, (u32 (oracle (1 + t))).testBit 30 = false) ∧
      ((L1 = budget ∧
        updateBRAMRun oracle budget shadow table k
          = ([Event.rd 1 (u32 (oracle 0)),
              Event.wr 1 (u32 (oracle 0) ||| 2 ^ 31)] ++ pollFails oracle 1 L1,
             false)) ∨
       (L1 < budget ∧ (u32 (oracle (1 + L1))).testBit 30 = true ∧
        ∃ L2, (∀ t < L2, (u32 (oracle (1 + L1 + 1 + 3 + t))).testBit 30 = true) ∧
          ((L2 = budget ∧
            updateBRAMRun oracle budget shadow table k
              = (updateStage1 oracle shadow table k L1
                  ++ pollFails oracle (1 + L1 + 1 + 3) L2, false)) ∨
           (L2 < budget ∧
            (u32 (oracle (1 + L1 + 1 + 3 + L2))).testBit 30 = false ∧
            updateBRAMRun oracle budget shadow table k
              = (updateStage1 oracle shadow table k L1
                  ++ (pollFails oracle (1 + L1 + 1 + 3) L2
                      ++ [Event.rd 1 (u32 (oracle (1 + L1 + 1 + 3 + L2)))])
                  ++ [Event.rd 1 (u32 (oracle (1 + L1 + 1 + 3 + L2 + 1))),
                      Event.wr 1
                        (clearBit32 (u32 (oracle (1 + L1 + 1 + 3 + L2 + 1))) 29)],
                 true))))) := by
  rcases pollStatus_spec oracle (fun v => v.testBit 30) budget 1 with
    ⟨heq1, hfail1⟩ | ⟨L1, hL1, heq1, hfail1, hsucc1⟩
  · refine ⟨budget, ?_, Or.inl ⟨rfl, ?_⟩⟩
    · intro t ht
      simpa using hfail1 t ht
    · simp only [updateBRAMRun, heq1]
  · rcases pollStatus_spec oracle (fun v => !(v.testBit 30)) budget (1 + L1 + 1 + 3)
      with ⟨heq2, hfail2⟩ | ⟨L2, hL2, heq2, hfail2, hsucc2⟩
    · refine ⟨L1, ?_, Or.inr ⟨hL1, by simpa using hsucc1, budget, ?_,
        Or.inl ⟨rfl, ?_⟩⟩⟩
      · intro t ht
        simpa using hfail1 t ht
      · intro t ht
        have := hfail2 t ht
        simpa using this
      · simp only [updateBRAMRun, heq1, heq2]
        simp [updateStage1, List.append_assoc]
    · refine ⟨L1, ?_, Or.inr ⟨hL1, by simpa using hsucc1, L2, ?_,
        Or.inr ⟨hL2, by simpa using hsucc2, ?_⟩⟩⟩
      · intro t ht
        simpa using hfail1 t ht
      · intro t ht
        have := hfail2 t ht
        simpa using this
      · simp only [updateBRAMRun, heq1, heq2]
        simp [updateStage1, List.append_assoc]

/-! ## C3: the parameter-update handshake sequence -/

/-- **C3.** A parameter update for table index `k` performs, in order:
read-modify-write setting bit 31; a poll of bit 30 with 1 ms sleeps
(timing out after the poll budget — the 1 s window — with a
`HandshakeTimeout` failure); read-modify-write clearing bit 31; the
re-programming of the whole BRAM table; read-modify-write replacing
the low 16 status bits with `k & 0xFFFF` while keeping the high 16;
read-modify-write setting bit 29; a poll until bit 30 reads 0 (again
failing after the budget); and read-modify-write clearing bit 29. -/
theorem updateBRAM_sequence (oracle : ℕ → ℕ) (budget : ℕ) (shadow : ℕ → ℤ)
    (table : List (ℕ × List ℕ)) (k : ℕ) :
    ∃ L1, (∀ t < L1, (u32 (oracle (1 + t))).testBit 30 = false) ∧
      ((L1 = budget ∧
        updateBRAMRun oracle budget shadow table k
          = ([Event.rd 1 (u32 (oracle 0)),
              Event.wr 1 (u32 (oracle 0) ||| 2 ^ 31)] ++ pollFails oracle 1 L1,
             false)) ∨
       (L1 < budget ∧ (u32 (oracle (1 + L1))).testBit 30 = true ∧
        ∃ L2, (∀ t < L2, (u32 (oracle (1 + L1 + 1 + 3 + t))).testBit 30 = true) ∧
          ((L2 = budget ∧
            updateBRAMRun oracle budget shadow table k
              = (updateStage1 oracle shadow table k L1
                  ++ pollFails oracle (1 + L1 + 1 + 3) L2, false)) ∨
           (L2 < budget ∧
            (u32 (oracle (1 + L1 + 1 + 3 + L2))).testBit 30 = false ∧
            updateBRAMRun oracle budget shadow table k
              = (updateStage1 oracle shadow table k L1
                  ++ (pollFails oracle (1 + L1 + 1 + 3) L2
                      ++ [Event.rd 1 (u32 (oracle (1 + L1 + 1 + 3 + L2)))])
                  ++ [Event.rd 1 (u32 (oracle (1 + L1 + 1 + 3 + L2 + 1))),
                      Event.wr 1
                        (clearBit32 (u32 (oracle (1 + L1 + 1 + 3 + L2 + 1))) 29)],
                 true))))) :=
  updateBRAMRun_cases oracle budget shadow table k

/-! ## C7: shadow update and handshake idempotence -/

/-- **C7.** For a known parameter ID: the host-side shadow equals the
requested value after the call regardless of the device (in
particular after a `HandshakeTimeout`); if the device never asserts
bit 30 the call returns the timeout failure; and the handshake is
always initiated (read status, write it back with bit 31 set) — also
when the requested value equals the current one. -/
theorem updateParameter_shadow (oracle : ℕ → ℕ) (budget : ℕ) (shadow : ℕ → ℤ)
    (table : List (ℕ × List ℕ)) (paramID : ℕ) (value : ℤ)
    (hmem : paramID ∈ table.map Prod.fst) :
    (updateParameterRun oracle budget shadow table paramID value).1 paramID
        = value ∧
    ((∀ i, (u32 (oracle i)).testBit 30 = false) →
      (updateParameterRun oracle budget shadow table paramID value).2.2
        = some false) ∧
    ∃ rest, (updateParameterRun oracle budget shadow table paramID value).2.1
        = Event.rd 1 (u32 (oracle 0))
          :: Event.wr 1 (u32 (oracle 0) ||| 2 ^ 31) :: rest := by
  have hdef : updateParameterRun oracle budget shadow table paramID value
      = (Function.update shadow paramID value,
         (updateBRAMRun oracle budget (Function.update shadow paramID value)
           table (table.findIdx (fun p => p.1 == paramID))).1,
         some ((updateBRAMRun oracle budget (Function.update shadow paramID value)
           table (table.findIdx (fun p => p.1 == paramID))).2)) := by
    simp only [updateParameterRun, if_pos hmem]
  obtain ⟨L1, hfail1, hcase⟩ := updateBRAMRun_cases oracle budget
    (Function.update shadow paramID value) table
    (table.findIdx (fun p => p.1 == paramID))
  refine ⟨?_, ?_, ?_⟩
  · rw [hdef]
    exact Function.update_same _ _ _
  · intro hnever
    rw [hdef]
    rcases hcase with ⟨hL1, heq⟩ | ⟨hL1, hsucc1, _⟩
    · rw [heq]
    · exact absurd hsucc1 (by simp [hnever])
  · rw [hdef]
    rcases hcase with ⟨hL1, heq⟩ | ⟨hL1, hsucc1, L2, hfail2, hcase2⟩
    · exact ⟨pollFails oracle 1 L1, by rw [heq]; rfl⟩
    · rcases hcase2 with ⟨hL2, heq⟩ | ⟨hL2, hs2, heq⟩
      · exact ⟨_, by rw [heq]; rfl⟩
      · exact ⟨_, by rw [heq]; rfl⟩

theorem updateParameter_shadow_witness :
    (updateParameterRun (fun _ => 0) 2 qcDefaultShadow qcParamTable 21 15).1 21
        = 15 ∧
    (updateParameterRun (fun _ => 0) 2 qcDefaultShadow qcParamTable 21 15).2.2
        = some false :=
  have h := updateParameter_shadow (fun _ => 0) 2 qcDefaultShadow qcParamTable
    21 15 (by decide)
  ⟨h.1, h.2.1 (fun i => by show (u32 0).testBit 30 = false; decide)⟩

end QC
